import Mathlib

/-!
Verification of the koyeb/sandbox-container process supervisor, ring log
buffer, log stream multiplexer, TCP proxy controller and HTTP auth layer.

Shallow embedding written from `pkg/server` (Go).  Pure helpers become Lean
functions; the concurrent parts (capture workers, completion watcher, the
subscription drain) become explicit transition systems whose atomic steps
are exactly the code's lock-guarded blocks.
-/

/-- One log line, mirroring Go struct `LogEntry` (timestamp, stream, data).
Wall-clock timestamps are abstracted to naturals. -/
structure LogEntry where
  timestamp : Nat
  stream : String
  data : String
deriving DecidableEq, Repr

/-- Mirror of Go struct `LogBuffer`: an entries slice and `maxEntries`. -/
structure LogBuffer where
  entries : List LogEntry
  maxEntries : Nat
deriving DecidableEq, Repr

/-- Mirror of `NewLogBuffer`: empty entries, the given capacity. -/
def NewLogBuffer (maxEntries : Nat) : LogBuffer :=
  { entries := [], maxEntries := maxEntries }

/-- Mirror of `LogBuffer.Append`: push the entry, then if the length
exceeds `maxEntries` keep only the last `maxEntries` entries
(`lb.entries = lb.entries[len-max:]`). -/
def LogBuffer.Append (lb : LogBuffer) (entry : LogEntry) : LogBuffer :=
  let es := lb.entries ++ [entry]
  if es.length > lb.maxEntries then
    { entries := es.drop (es.length - lb.maxEntries), maxEntries := lb.maxEntries }
  else
    { entries := es, maxEntries := lb.maxEntries }

/-- Mirror of `LogBuffer.GetAll`: the snapshot of the entries.  The Go code
returns a fresh copy of the slice; in the embedding a snapshot is a value,
which is exactly the "copy, never mutated afterwards" contract. -/
def LogBuffer.GetAll (lb : LogBuffer) : List LogEntry :=
  lb.entries

/-- A sequence of `Append` calls, oldest first. -/
def LogBuffer.appendAll (lb : LogBuffer) (xs : List LogEntry) : LogBuffer :=
  xs.foldl LogBuffer.Append lb

lemma LogBuffer.Append_eq (lb : LogBuffer) (entry : LogEntry) :
    lb.Append entry =
      { entries := (lb.entries ++ [entry]).drop (lb.entries.length + 1 - lb.maxEntries),
        maxEntries := lb.maxEntries } := by
  unfold LogBuffer.Append
  simp only [List.length_append, List.length_singleton]
  by_cases h : lb.entries.length + 1 > lb.maxEntries
  · simp [h]
  · have h0 : lb.entries.length + 1 - lb.maxEntries = 0 := by omega
    simp [h, h0]

lemma LogBuffer.appendAll_entries (xs : List LogEntry) :
    ∀ (lb : LogBuffer), lb.entries.length ≤ lb.maxEntries →
      (lb.appendAll xs).entries =
        (lb.entries ++ xs).drop (lb.entries.length + xs.length - lb.maxEntries) ∧
      (lb.appendAll xs).maxEntries = lb.maxEntries := by
  induction xs with
  | nil =>
    intro lb hle
    have h0 : lb.entries.length - lb.maxEntries = 0 := by omega
    simp [LogBuffer.appendAll, h0]
  | cons x xs ih =>
    intro lb hle
    have hstep : LogBuffer.appendAll lb (x :: xs) = LogBuffer.appendAll (lb.Append x) xs := by
      simp [LogBuffer.appendAll]
    have hx := lb.Append_eq x
    have hlen' : (lb.Append x).entries.length ≤ (lb.Append x).maxEntries := by
      rw [hx]
      simp only [List.length_drop, List.length_append, List.length_singleton]
      omega
    have hmax : (lb.Append x).maxEntries = lb.maxEntries := by rw [hx]
    obtain ⟨hent, hmax'⟩ := ih (lb.Append x) hlen'
    refine ⟨?_, by rw [hstep, hmax', hmax]⟩
    rw [hstep, hent, hmax]
    rw [hx]
    simp only [List.length_drop, List.length_append, List.length_singleton]
    have hd : lb.entries.length + 1 - lb.maxEntries ≤ (lb.entries ++ [x]).length := by
      simp only [List.length_append, List.length_singleton]; omega
    rw [← List.drop_append_of_le_length hd]
    rw [List.drop_drop]
    have harr : lb.entries ++ [x] ++ xs = lb.entries ++ x :: xs := by simp
    rw [harr]
    simp only [List.length_cons]
    congr 1
    omega

/-- Claim C3 statement over a run from the empty buffer. -/
lemma LogBuffer.run_characterization (C : Nat) (xs : List LogEntry) :
    ((NewLogBuffer C).appendAll xs).GetAll = xs.drop (xs.length - C) := by
  have h := LogBuffer.appendAll_entries xs (NewLogBuffer C) (by simp [NewLogBuffer])
  simpa [NewLogBuffer, LogBuffer.GetAll] using h.1

/-- C3: for every capacity C ≥ 1 and every sequence `xs` of appends to an
initially empty ring, `GetAll` (the snapshot) is exactly the last
`min (xs.length) C` appended entries in append order (the suffix
`xs.drop (xs.length - C)`), its length is `min (xs.length) C`, and in
particular never exceeds C.  Snapshots are values in this embedding, so a
returned snapshot is never mutated by later appends. -/
theorem logBuffer_snapshot_last_min (C : Nat) (hC : 1 ≤ C) (xs : List LogEntry) :
    ((NewLogBuffer C).appendAll xs).GetAll = xs.drop (xs.length - C) ∧
    ((NewLogBuffer C).appendAll xs).GetAll.length = min xs.length C ∧
    ((NewLogBuffer C).appendAll xs).GetAll.length ≤ C := by
  have h := LogBuffer.run_characterization C xs
  refine ⟨h, ?_, ?_⟩
  · rw [h, List.length_drop]; omega
  · rw [h, List.length_drop]; omega

/-- Witness for C3 at C = 3 and five concrete appends: the snapshot holds
exactly the last three entries, in order. -/
theorem logBuffer_snapshot_last_min_witness :
    ((NewLogBuffer 3).appendAll
        [⟨0, "stdout", "L1"⟩, ⟨1, "stdout", "L2"⟩, ⟨2, "stdout", "L3"⟩,
         ⟨3, "stdout", "L4"⟩, ⟨4, "stdout", "L5"⟩]).GetAll =
      [⟨2, "stdout", "L3"⟩, ⟨3, "stdout", "L4"⟩, ⟨4, "stdout", "L5"⟩] := by
  have h := logBuffer_snapshot_last_min 3 (by decide)
      [⟨0, "stdout", "L1"⟩, ⟨1, "stdout", "L2"⟩, ⟨2, "stdout", "L3"⟩,
       ⟨3, "stdout", "L4"⟩, ⟨4, "stdout", "L5"⟩]
  rw [h.1]
  rfl

/-- Mirror of Go type `ProcessStatus` and its four constants. -/
inductive ProcessStatus where
  | running
  | completed
  | failed
  | killed
deriving DecidableEq, Repr

/-- What `cmd.Wait()` reports once the child is reaped: whether the
returned error was non-nil, and `ProcessState.ExitCode()` (which is `-1`
when the child was terminated by a signal).  For a reaped child the Go
runtime returns a nil error exactly when the exit code is zero; that fact
is the `wf` predicate below and is assumed, not proved, about the OS. -/
structure WaitOutcome where
  errNonNil : Bool
  code : Int
deriving DecidableEq, Repr

/-- Faithfulness condition on a wait outcome (see `WaitOutcome`). -/
def WaitOutcome.wf (o : WaitOutcome) : Prop :=
  o.errNonNil = true ↔ o.code ≠ 0

instance (o : WaitOutcome) : Decidable o.wf := by
  unfold WaitOutcome.wf
  infer_instance

/-- The status classification inside `waitForCompletion`: non-nil error
with exit code -1 means killed, non-nil error otherwise failed, nil error
completed. -/
def classifyWait (o : WaitOutcome) : ProcessStatus :=
  if o.errNonNil then
    if o.code = -1 then ProcessStatus.killed else ProcessStatus.failed
  else ProcessStatus.completed

/-- State of one supervised `Process` together with the not-yet-consumed
lines of its two pipes.  `stdoutPipe`/`stderrPipe` hold the lines the two
capture workers will still deliver; `watcherPending` is true while the
single `waitForCompletion` goroutine has not yet executed its
lock-guarded block; `doneFired` records `close(done)`. -/
structure PState where
  status : ProcessStatus
  endTime : Option Nat
  exitCode : Option Int
  doneFired : Bool
  stdoutRing : LogBuffer
  stderrRing : LogBuffer
  stdoutPipe : List String
  stderrPipe : List String
  watcherPending : Bool
deriving DecidableEq, Repr

/-- Atomic events of the per-process concurrency: one capture-worker
append (stdout or stderr) or the completion watcher's lock-guarded block.
The capture steps are not guarded by `done` — `captureOutput` never looks
at it, which is exactly what the code does. -/
inductive PStep where
  | captureOut (ts : Nat)
  | captureErr (ts : Nat)
  | complete (o : WaitOutcome) (t : Nat)
deriving DecidableEq, Repr

/-- One transition; `none` when the event is not enabled in this state.
`complete` mirrors the body of `waitForCompletion` after `cmd.Wait()`
returns: under the process lock it sets `EndTime`, classifies `Status`,
stores `ExitCode` and closes `done`, all in one critical section. -/
def pstep (s : PState) (a : PStep) : Option PState :=
  match a with
  | PStep.captureOut ts =>
    match s.stdoutPipe with
    | [] => none
    | d :: rest =>
      some { s with stdoutRing := s.stdoutRing.Append ⟨ts, "stdout", d⟩, stdoutPipe := rest }
  | PStep.captureErr ts =>
    match s.stderrPipe with
    | [] => none
    | d :: rest =>
      some { s with stderrRing := s.stderrRing.Append ⟨ts, "stderr", d⟩, stderrPipe := rest }
  | PStep.complete o t =>
    if s.watcherPending then
      some { s with
        watcherPending := false
        endTime := some t
        status := classifyWait o
        exitCode := some o.code
        doneFired := true }
    else none

/-- Run a list of events from a state. -/
def prun (s : PState) (tr : List PStep) : Option PState :=
  match tr with
  | [] => some s
  | a :: tr' =>
    match pstep s a with
    | none => none
    | some s' => prun s' tr'

/-- The record `StartProcess` builds and registers: status Running, no end
time, no exit code, `done` not fired, two empty rings of capacity 10000,
and the watcher goroutine about to run.  The pipe contents stand for the
lines the child will emit. -/
def initProc (outLines errLines : List String) : PState :=
  { status := ProcessStatus.running
    endTime := none
    exitCode := none
    doneFired := false
    stdoutRing := NewLogBuffer 10000
    stderrRing := NewLogBuffer 10000
    stdoutPipe := outLines
    stderrPipe := errLines
    watcherPending := true }

/-- Number of completion-watcher events in a trace. -/
def countComplete (tr : List PStep) : Nat :=
  tr.countP (fun a => match a with | PStep.complete _ _ => true | _ => false)

lemma prun_append (s : PState) (tr1 tr2 : List PStep) :
    prun s (tr1 ++ tr2) =
      match prun s tr1 with
      | none => none
      | some s' => prun s' tr2 := by
  induction tr1 generalizing s with
  | nil => simp [prun]
  | cons a tr1 ih =>
    simp only [List.cons_append, prun]
    cases pstep s a with
    | none => rfl
    | some s' => exact ih s'

/-- A successful stdout-capture step changes only the stdout ring and the
stdout pipe. -/
lemma pstep_captureOut_some {s s' : PState} {ts : Nat}
    (h : pstep s (PStep.captureOut ts) = some s') :
    s'.status = s.status ∧ s'.endTime = s.endTime ∧ s'.exitCode = s.exitCode ∧
    s'.doneFired = s.doneFired ∧ s'.watcherPending = s.watcherPending ∧
    s'.stderrRing = s.stderrRing ∧ s'.stderrPipe = s.stderrPipe := by
  unfold pstep at h
  cases hpipe : s.stdoutPipe with
  | nil => rw [hpipe] at h; cases h
  | cons d rest =>
    rw [hpipe] at h
    cases h
    simp

/-- A successful stderr-capture step changes only the stderr ring and the
stderr pipe. -/
lemma pstep_captureErr_some {s s' : PState} {ts : Nat}
    (h : pstep s (PStep.captureErr ts) = some s') :
    s'.status = s.status ∧ s'.endTime = s.endTime ∧ s'.exitCode = s.exitCode ∧
    s'.doneFired = s.doneFired ∧ s'.watcherPending = s.watcherPending ∧
    s'.stdoutRing = s.stdoutRing ∧ s'.stdoutPipe = s.stdoutPipe := by
  unfold pstep at h
  cases hpipe : s.stderrPipe with
  | nil => rw [hpipe] at h; cases h
  | cons d rest =>
    rw [hpipe] at h
    cases h
    simp

/-- A successful `complete` step requires the watcher to be pending and
performs exactly the lock-guarded block of `waitForCompletion`. -/
lemma pstep_complete_some {s s' : PState} {o : WaitOutcome} {t : Nat}
    (h : pstep s (PStep.complete o t) = some s') :
    s.watcherPending = true ∧
    s' = { s with
      watcherPending := false
      endTime := some t
      status := classifyWait o
      exitCode := some o.code
      doneFired := true } := by
  simp only [pstep] at h
  by_cases hw : s.watcherPending = true
  · rw [if_pos hw] at h
    cases h
    exact ⟨hw, rfl⟩
  · rw [if_neg hw] at h
    cases h

/-- Once the watcher has run, no step touches the lifecycle fields and no
further `complete` event is enabled. -/
lemma prun_watcher_done (tr : List PStep) :
    ∀ (s s' : PState), s.watcherPending = false → prun s tr = some s' →
      s'.status = s.status ∧ s'.endTime = s.endTime ∧ s'.exitCode = s.exitCode ∧
      s'.doneFired = s.doneFired ∧ s'.watcherPending = false ∧
      countComplete tr = 0 := by
  induction tr with
  | nil =>
    intro s s' hw hrun
    simp only [prun] at hrun
    cases hrun
    simp [countComplete, hw]
  | cons a tr ih =>
    intro s s' hw hrun
    simp only [prun] at hrun
    cases hps : pstep s a with
    | none => rw [hps] at hrun; cases hrun
    | some s1 =>
      rw [hps] at hrun
      cases a with
      | captureOut ts =>
        obtain ⟨h1, h2, h3, h4, h5, _, _⟩ := pstep_captureOut_some hps
        obtain ⟨g1, g2, g3, g4, g5, g6⟩ := ih s1 s' (by rw [h5]; exact hw) hrun
        refine ⟨?_, ?_, ?_, ?_, g5, ?_⟩
        · rw [g1, h1]
        · rw [g2, h2]
        · rw [g3, h3]
        · rw [g4, h4]
        · simpa [countComplete, List.countP_cons] using g6
      | captureErr ts =>
        obtain ⟨h1, h2, h3, h4, h5, _, _⟩ := pstep_captureErr_some hps
        obtain ⟨g1, g2, g3, g4, g5, g6⟩ := ih s1 s' (by rw [h5]; exact hw) hrun
        refine ⟨?_, ?_, ?_, ?_, g5, ?_⟩
        · rw [g1, h1]
        · rw [g2, h2]
        · rw [g3, h3]
        · rw [g4, h4]
        · simpa [countComplete, List.countP_cons] using g6
      | complete o t =>
        obtain ⟨hw', _⟩ := pstep_complete_some hps
        rw [hw] at hw'
        cases hw'

/-- From a state whose watcher has not yet run: at most one `complete`
occurs in any valid trace, and after a `complete` with outcome `o` at time
`t` the final state has exactly the classified status, `endTime = some t`,
`exitCode = some o.code` and `done` fired. -/
lemma prun_complete_spec (tr : List PStep) :
    ∀ (s s' : PState), s.watcherPending = true → prun s tr = some s' →
      countComplete tr ≤ 1 ∧
      ∀ o t, PStep.complete o t ∈ tr →
        s'.status = classifyWait o ∧ s'.endTime = some t ∧
        s'.exitCode = some o.code ∧ s'.doneFired = true := by
  induction tr with
  | nil =>
    intro s s' hw hrun
    refine ⟨by simp [countComplete], ?_⟩
    intro o t hmem
    simp at hmem
  | cons a tr ih =>
    intro s s' hw hrun
    simp only [prun] at hrun
    cases hps : pstep s a with
    | none => rw [hps] at hrun; cases hrun
    | some s1 =>
      rw [hps] at hrun
      cases a with
      | captureOut ts =>
        obtain ⟨_, _, _, _, h5, _, _⟩ := pstep_captureOut_some hps
        obtain ⟨hcnt, hspec⟩ := ih s1 s' (by rw [h5]; exact hw) hrun
        refine ⟨by simpa [countComplete, List.countP_cons] using hcnt, ?_⟩
        intro o t hmem
        rcases List.mem_cons.mp hmem with h | h
        · cases h
        · exact hspec o t h
      | captureErr ts =>
        obtain ⟨_, _, _, _, h5, _, _⟩ := pstep_captureErr_some hps
        obtain ⟨hcnt, hspec⟩ := ih s1 s' (by rw [h5]; exact hw) hrun
        refine ⟨by simpa [countComplete, List.countP_cons] using hcnt, ?_⟩
        intro o t hmem
        rcases List.mem_cons.mp hmem with h | h
        · cases h
        · exact hspec o t h
      | complete o' t' =>
        obtain ⟨_, hs1⟩ := pstep_complete_some hps
        obtain ⟨g1, g2, g3, g4, g5, g6⟩ := prun_watcher_done tr s1 s' (by rw [hs1]) hrun
        constructor
        · simpa [countComplete, List.countP_cons] using g6
        · intro o t hmem
          rcases List.mem_cons.mp hmem with h | h
          · cases h
            rw [hs1] at g1 g2 g3 g4
            exact ⟨by simpa using g1, by simpa using g2, by simpa using g3, by simpa using g4⟩
          · exfalso
            have hpos : 0 < countComplete tr := by
              unfold countComplete
              exact List.countP_pos_iff.mpr ⟨_, h, by simp⟩
            omega

/-- Under the OS-faithfulness condition, the watcher's classification
agrees with classification by exit code alone: -1 means killed, other
non-zero means failed, zero means completed. -/
lemma classifyWait_by_code (o : WaitOutcome) (hwf : o.wf) :
    classifyWait o =
      (if o.code = -1 then ProcessStatus.killed
       else if o.code = 0 then ProcessStatus.completed
       else ProcessStatus.failed) := by
  unfold WaitOutcome.wf at hwf
  by_cases hc : o.code = 0
  · have herr : o.errNonNil = false := by
      cases h : o.errNonNil
      · rfl
      · exact absurd (hwf.mp h) (by simp [hc])
    simp [classifyWait, herr, hc]
  · have herr : o.errNonNil = true := hwf.mpr hc
    simp [classifyWait, herr, hc]

/-- The watcher never leaves a process in Running. -/
lemma classifyWait_ne_running (o : WaitOutcome) :
    classifyWait o ≠ ProcessStatus.running := by
  unfold classifyWait
  by_cases h : o.errNonNil <;> by_cases hc : o.code = -1 <;> simp [h, hc]

/-- C1: along every valid event interleaving of a supervised process, the
completion watcher runs at most once (exactly one Running-to-terminal
transition); from any state where it has not yet run it is enabled; and
whenever the trace contains its step with wait outcome `o` at time `t`,
the resulting process record has `done` fired, `endTime = some t`,
`exitCode = some o.code`, and status Killed when the exit code is -1 (no
normal exit), Failed for a normal non-zero exit, Completed for a zero
exit.  `endTime` and `exitCode` are assigned in the same atomic
lock-guarded block that fires `done`, so they are set before any observer
of `done` can run. -/
theorem waitForCompletion_terminal_transition
    (outL errL : List String) (tr : List PStep) (s : PState)
    (hrun : prun (initProc outL errL) tr = some s) :
    countComplete tr ≤ 1 ∧
    (s.watcherPending = true → ∀ o t, (pstep s (PStep.complete o t)).isSome = true) ∧
    ∀ o t, PStep.complete o t ∈ tr → o.wf →
      s.doneFired = true ∧ s.endTime = some t ∧ s.exitCode = some o.code ∧
      s.status = (if o.code = -1 then ProcessStatus.killed
                  else if o.code = 0 then ProcessStatus.completed
                  else ProcessStatus.failed) := by
  obtain ⟨hcnt, hspec⟩ := prun_complete_spec tr (initProc outL errL) s rfl hrun
  refine ⟨hcnt, ?_, ?_⟩
  · intro hw o t
    simp [pstep, hw]
  · intro o t hmem hwf
    obtain ⟨h1, h2, h3, h4⟩ := hspec o t hmem
    exact ⟨h4, h2, h3, by rw [h1, classifyWait_by_code o hwf]⟩

/-- Witness for C1: a concrete one-event trace in which the child is
reported killed (exit code -1); the final record is Killed with `done`
fired. -/
theorem waitForCompletion_terminal_transition_witness :
    prun (initProc [] []) [PStep.complete ⟨true, -1⟩ 7] = some
      { status := ProcessStatus.killed, endTime := some 7, exitCode := some (-1),
        doneFired := true, stdoutRing := NewLogBuffer 10000,
        stderrRing := NewLogBuffer 10000, stdoutPipe := [], stderrPipe := [],
        watcherPending := false } ∧
    ProcessStatus.killed = (if (-1 : Int) = -1 then ProcessStatus.killed
                            else if (-1 : Int) = 0 then ProcessStatus.completed
                            else ProcessStatus.failed) := by
  refine ⟨by decide, ?_⟩
  have h := (waitForCompletion_terminal_transition [] [] [PStep.complete ⟨true, -1⟩ 7]
      { status := ProcessStatus.killed, endTime := some 7, exitCode := some (-1),
        doneFired := true, stdoutRing := NewLogBuffer 10000,
        stderrRing := NewLogBuffer 10000, stdoutPipe := [], stderrPipe := [],
        watcherPending := false } (by decide)).2.2 ⟨true, -1⟩ 7 (by decide) (by decide)
  exact h.2.2.2.symm

/-- The C2 record invariant. -/
def lifecycleInv (s : PState) : Prop :=
  (s.status = ProcessStatus.running ↔ s.endTime = none) ∧
  (s.status = ProcessStatus.running ↔ s.exitCode = none)

lemma prun_lifecycleInv (tr : List PStep) :
    ∀ (s s' : PState), lifecycleInv s → prun s tr = some s' → lifecycleInv s' := by
  induction tr with
  | nil =>
    intro s s' hinv hrun
    simp only [prun] at hrun
    cases hrun
    exact hinv
  | cons a tr ih =>
    intro s s' hinv hrun
    simp only [prun] at hrun
    cases hps : pstep s a with
    | none => rw [hps] at hrun; cases hrun
    | some s1 =>
      rw [hps] at hrun
      refine ih s1 s' ?_ hrun
      cases a with
      | captureOut ts =>
        obtain ⟨h1, h2, h3, _⟩ := pstep_captureOut_some hps
        exact ⟨by rw [h1, h2]; exact hinv.1, by rw [h1, h3]; exact hinv.2⟩
      | captureErr ts =>
        obtain ⟨h1, h2, h3, _⟩ := pstep_captureErr_some hps
        exact ⟨by rw [h1, h2]; exact hinv.1, by rw [h1, h3]; exact hinv.2⟩
      | complete o t =>
        obtain ⟨_, hs1⟩ := pstep_complete_some hps
        rw [hs1]
        constructor
        · simp [classifyWait_ne_running o]
        · simp [classifyWait_ne_running o]

/-- C2: at every observable point (every state reachable by a valid event
interleaving from the freshly started record), `status = Running` holds
iff `endTime` is unset iff `exitCode` is unset.  The three fields are
written together in the watcher's single lock-guarded block, which is the
one atomic `complete` step of the model. -/
theorem process_running_iff_no_endTime_exitCode
    (outL errL : List String) (tr : List PStep) (s : PState)
    (hrun : prun (initProc outL errL) tr = some s) :
    (s.status = ProcessStatus.running ↔ s.endTime = none) ∧
    (s.status = ProcessStatus.running ↔ s.exitCode = none) :=
  prun_lifecycleInv tr (initProc outL errL) s (by simp [lifecycleInv, initProc]) hrun

/-- Witness for C2 at a concrete two-event trace: after one captured line
and a zero-exit completion, the record is Completed with both fields
set. -/
theorem process_running_iff_no_endTime_exitCode_witness :
    (ProcessStatus.completed = ProcessStatus.running ↔ (some 2 : Option Nat) = none) ∧
    (ProcessStatus.completed = ProcessStatus.running ↔ (some 0 : Option Int) = none) := by
  have h := process_running_iff_no_endTime_exitCode ["a"] []
      [PStep.captureOut 1, PStep.complete ⟨false, 0⟩ 2]
      { status := ProcessStatus.completed, endTime := some 2, exitCode := some 0,
        doneFired := true,
        stdoutRing := { entries := [⟨1, "stdout", "a"⟩], maxEntries := 10000 },
        stderrRing := NewLogBuffer 10000, stdoutPipe := [], stderrPipe := [],
        watcherPending := false } (by decide)
  exact h

/-- Claim C4 as stated: once `done` has fired, no further line is ever
appended to either ring — i.e. no enabled step from a reachable state with
`doneFired` may change a ring. -/
def noAppendAfterDone : Prop :=
  ∀ (outL errL : List String) (tr : List PStep) (s : PState) (a : PStep) (s' : PState),
    prun (initProc outL errL) tr = some s → s.doneFired = true →
    pstep s a = some s' →
    s'.stdoutRing = s.stdoutRing ∧ s'.stderrRing = s.stderrRing

/-- C4 counterexample: the capture workers are not synchronized with the
watcher (`captureOutput` never consults `done`, and `cmd.Wait()` can
return while a worker still holds lines it has already read — the 100 ms
grace sleep in `StreamProcessLogs` exists precisely for those late
lines).  Concretely: the child wrote one line, the watcher completes
first (`done` fires), and the stdout worker then appends the line. -/
theorem noAppendAfterDone_counterexample : ¬ noAppendAfterDone := by
  intro h
  have hc := h ["late"] [] [PStep.complete ⟨false, 0⟩ 0]
      { status := ProcessStatus.completed, endTime := some 0, exitCode := some 0,
        doneFired := true, stdoutRing := NewLogBuffer 10000,
        stderrRing := NewLogBuffer 10000, stdoutPipe := ["late"], stderrPipe := [],
        watcherPending := false }
      (PStep.captureOut 1)
      { status := ProcessStatus.completed, endTime := some 0, exitCode := some 0,
        doneFired := true,
        stdoutRing := { entries := [⟨1, "stdout", "late"⟩], maxEntries := 10000 },
        stderrRing := NewLogBuffer 10000, stdoutPipe := [], stderrPipe := [],
        watcherPending := false }
      (by decide) (by decide) (by decide)
  exact absurd hc.1 (by decide)

lemma prun_rings_stable_of_pipes_empty (tr : List PStep) :
    ∀ (s s' : PState), s.stdoutPipe = [] → s.stderrPipe = [] →
      prun s tr = some s' →
      s'.stdoutRing = s.stdoutRing ∧ s'.stderrRing = s.stderrRing := by
  induction tr with
  | nil =>
    intro s s' _ _ hrun
    simp only [prun] at hrun
    cases hrun
    exact ⟨rfl, rfl⟩
  | cons a tr ih =>
    intro s s' hout herr hrun
    simp only [prun] at hrun
    cases hps : pstep s a with
    | none => rw [hps] at hrun; cases hrun
    | some s1 =>
      rw [hps] at hrun
      cases a with
      | captureOut ts =>
        exfalso
        unfold pstep at hps
        rw [hout] at hps
        cases hps
      | captureErr ts =>
        exfalso
        unfold pstep at hps
        rw [herr] at hps
        cases hps
      | complete o t =>
        obtain ⟨_, hs1⟩ := pstep_complete_some hps
        have := ih s1 s' (by rw [hs1]; exact hout) (by rw [hs1]; exact herr) hrun
        rw [hs1] at this
        exact this

/-- C4 amended: once `done` has fired AND both capture workers have
exhausted the lines they will deliver (after the flush-grace window), no
further line is appended to either ring along any continuation.  Before
the pipes are drained, a worker may still append lines it had already
read even though `done` has fired. -/
theorem rings_stable_after_done_and_drain
    (outL errL : List String) (tr : List PStep) (s : PState)
    (_hrun : prun (initProc outL errL) tr = some s)
    (_hdone : s.doneFired = true)
    (hout : s.stdoutPipe = []) (herr : s.stderrPipe = [])
    (tr2 : List PStep) (s' : PState) (hrun2 : prun s tr2 = some s') :
    s'.stdoutRing = s.stdoutRing ∧ s'.stderrRing = s.stderrRing :=
  prun_rings_stable_of_pipes_empty tr2 s s' hout herr hrun2

/-- Witness for the amended C4: a concrete run that captures its one line,
completes, and then (with `done` fired and pipes drained) has stable
rings. -/
theorem rings_stable_after_done_and_drain_witness :
    { entries := [⟨0, "stdout", "a"⟩], maxEntries := 10000 : LogBuffer } =
      { entries := [⟨0, "stdout", "a"⟩], maxEntries := 10000 : LogBuffer } ∧
    NewLogBuffer 10000 = NewLogBuffer 10000 := by
  have h := rings_stable_after_done_and_drain ["a"] []
      [PStep.captureOut 0, PStep.complete ⟨false, 0⟩ 1]
      { status := ProcessStatus.completed, endTime := some 1, exitCode := some 0,
        doneFired := true,
        stdoutRing := { entries := [⟨0, "stdout", "a"⟩], maxEntries := 10000 },
        stderrRing := NewLogBuffer 10000, stdoutPipe := [], stderrPipe := [],
        watcherPending := false }
      (by decide) (by decide) (by decide) (by decide) []
      { status := ProcessStatus.completed, endTime := some 1, exitCode := some 0,
        doneFired := true,
        stdoutRing := { entries := [⟨0, "stdout", "a"⟩], maxEntries := 10000 },
        stderrRing := NewLogBuffer 10000, stdoutPipe := [], stderrPipe := [],
        watcherPending := false }
      (by decide)
  exact h

/-- Manager-level view of a registered `Process` record: the fields
`KillProcess` reads, plus the two the claim says it must not touch.
`hasPid` mirrors `cmd.Process != nil` (true for every record registered
by `StartProcess`, which registers only after a successful `Start`). -/
structure ProcRecord where
  status : ProcessStatus
  hasPid : Bool
  endTime : Option Nat
  exitCode : Option Int
deriving DecidableEq, Repr

/-- The supervisor map `id → Process`, as an association list. -/
def PMState := List (String × ProcRecord)

/-- Mirror of `GetProcess` (lookup in `pm.processes`). -/
def GetProcess (pm : PMState) (id : String) : Option ProcRecord :=
  (pm.find? (fun p => p.1 = id)).map (fun p => p.2)

/-- Result of `KillProcess`: the three error paths and the success path
(`cmd.Process.Kill()` delivers SIGKILL). -/
inductive KillOutcome where
  | processNotFound
  | notRunning (current : ProcessStatus)
  | noPid
  | signalSent
deriving DecidableEq, Repr

/-- Mirror of `ProcessManager.KillProcess`: look the process up, fail if
missing; under the read lock fetch status; fail with the
`process is not running (status: ...)` error if not Running; fail if the
child has no PID; otherwise send the unconditional kill signal.  The
function returns the manager state unchanged because the Go code only
reads — status, `EndTime` and `ExitCode` are written solely by the
completion watcher. -/
def KillProcess (pm : PMState) (id : String) : KillOutcome × PMState :=
  match GetProcess pm id with
  | none => (KillOutcome.processNotFound, pm)
  | some rec =>
    if rec.status ≠ ProcessStatus.running then
      (KillOutcome.notRunning rec.status, pm)
    else if rec.hasPid = false then
      (KillOutcome.noPid, pm)
    else
      (KillOutcome.signalSent, pm)

/-- C7: for an existing process, `KillProcess` fails with the NotRunning
error carrying the current status exactly when the status is not Running;
on a Running process (whose record has a PID, as all registered records
do) it reports the kill signal sent; and in every case it leaves the
manager state — hence every status, end time and exit code — unchanged. -/
theorem killProcess_spec (pm : PMState) (id : String) (rec : ProcRecord)
    (hfound : GetProcess pm id = some rec) :
    ((KillProcess pm id).1 = KillOutcome.notRunning rec.status ↔
        rec.status ≠ ProcessStatus.running) ∧
    (rec.status = ProcessStatus.running → rec.hasPid = true →
        (KillProcess pm id).1 = KillOutcome.signalSent) ∧
    (KillProcess pm id).2 = pm := by
  unfold KillProcess
  rw [hfound]
  by_cases hs : rec.status = ProcessStatus.running
  · refine ⟨?_, ?_, ?_⟩
    · constructor
      · intro h
        by_cases hp : rec.hasPid = false <;> simp [hs, hp] at h
      · intro h
        exact absurd hs h
    · intro _ hp
      simp [hs, hp]
    · by_cases hp : rec.hasPid = false <;> simp [hs, hp]
  · refine ⟨?_, ?_, ?_⟩
    · simp [hs]
    · intro h
      exact absurd h hs
    · simp [hs]

/-- Witness for C7: a one-entry manager with a Running process having a
PID; kill sends the signal and the map is unchanged. -/
theorem killProcess_spec_witness :
    ¬ (KillProcess [("p1", ⟨ProcessStatus.running, true, none, none⟩)] "p1").1 =
        KillOutcome.notRunning ProcessStatus.running ∧
    (KillProcess [("p1", ⟨ProcessStatus.running, true, none, none⟩)] "p1").1 =
        KillOutcome.signalSent ∧
    (KillProcess [("p1", ⟨ProcessStatus.running, true, none, none⟩)] "p1").2 =
      [("p1", ⟨ProcessStatus.running, true, none, none⟩)] := by
  have h := killProcess_spec [("p1", ⟨ProcessStatus.running, true, none, none⟩)] "p1"
      ⟨ProcessStatus.running, true, none, none⟩ (by decide)
  refine ⟨?_, h.2.1 rfl rfl, h.2.2⟩
  intro hcontra
  exact (h.1.mp hcontra) rfl

/-- The failure points of `StartProcess`, in the order the code hits
them: `cmd.StdoutPipe()`, `cmd.StderrPipe()`, `cmd.Start()`. -/
structure SpawnEnv where
  stdoutPipeFails : Bool
  stderrPipeFails : Bool
  startFails : Bool
  pid : Nat
deriving DecidableEq, Repr

/-- What `StartProcess` produced: the possibly-updated map, the result,
and how many goroutines it launched (two capture workers and the
completion watcher on success, none on failure). -/
structure StartResult where
  pm : PMState
  result : Except String ProcRecord
  captureWorkers : Nat
  watcherSpawned : Bool

/-- Mirror of `ProcessManager.StartProcess` at the manager level: build
the Running record, then try the stdout pipe, the stderr pipe and
`cmd.Start()` in that order, returning the error without touching the map
or spawning anything; on success record the PID, register the process in
the map, and launch the two capture workers plus the watcher. -/
def StartProcess (pm : PMState) (id : String) (env : SpawnEnv) : StartResult :=
  if env.stdoutPipeFails then
    ⟨pm, Except.error "failed to create stdout pipe", 0, false⟩
  else if env.stderrPipeFails then
    ⟨pm, Except.error "failed to create stderr pipe", 0, false⟩
  else if env.startFails then
    ⟨pm, Except.error "failed to start command", 0, false⟩
  else
    let record : ProcRecord := ⟨ProcessStatus.running, true, none, none⟩
    ⟨(id, record) :: pm, Except.ok record, 2, true⟩

/-- C10: when any of the three spawn stages fails, `StartProcess` returns
the error, the id-to-process map is exactly the previous one (so nothing
is registered under the fresh id), and no capture worker or completion
watcher is started. -/
theorem startProcess_failure_atomic (pm : PMState) (id : String) (env : SpawnEnv)
    (hfail : env.stdoutPipeFails = true ∨ env.stderrPipeFails = true ∨
             env.startFails = true) :
    (StartProcess pm id env).result.isOk = false ∧
    (StartProcess pm id env).pm = pm ∧
    GetProcess (StartProcess pm id env).pm id = GetProcess pm id ∧
    (StartProcess pm id env).captureWorkers = 0 ∧
    (StartProcess pm id env).watcherSpawned = false := by
  unfold StartProcess
  rcases hfail with h | h | h
  · simp [h, Except.isOk, Except.toBool]
  · by_cases h1 : env.stdoutPipeFails = true <;>
      simp [h, h1, Except.isOk, Except.toBool]
  · by_cases h1 : env.stdoutPipeFails = true <;>
      by_cases h2 : env.stderrPipeFails = true <;>
      simp [h, h1, h2, Except.isOk, Except.toBool]

/-- Witness for C10: spawn fails at `cmd.Start()`; nothing is registered
and nothing is launched. -/
theorem startProcess_failure_atomic_witness :
    (StartProcess [] "p1" ⟨false, false, true, 0⟩).result.isOk = false ∧
    (StartProcess [] "p1" ⟨false, false, true, 0⟩).pm = [] ∧
    GetProcess (StartProcess [] "p1" ⟨false, false, true, 0⟩).pm "p1" =
      GetProcess [] "p1" ∧
    (StartProcess [] "p1" ⟨false, false, true, 0⟩).captureWorkers = 0 ∧
    (StartProcess [] "p1" ⟨false, false, true, 0⟩).watcherSpawned = false :=
  startProcess_failure_atomic [] "p1" ⟨false, false, true, 0⟩ (Or.inr (Or.inr rfl))

/-- The `TCPProxy` controller state: the RW-locked `targetPort` string,
empty iff unbound (the listener handle is independent of the target and
irrelevant to bind/unbind). -/
structure TCPProxy where
  targetPort : String
deriving DecidableEq, Repr

/-- Mirror of `TCPProxy.SetTargetPort`. -/
def TCPProxy.SetTargetPort (p : TCPProxy) (port : String) : TCPProxy :=
  { p with targetPort := port }

/-- Mirror of `TCPProxy.GetTargetPort`. -/
def TCPProxy.GetTargetPort (p : TCPProxy) : String :=
  p.targetPort

/-- Mirror of `TCPProxy.ClearTargetPort`. -/
def TCPProxy.ClearTargetPort (p : TCPProxy) : TCPProxy :=
  { p with targetPort := "" }

/-- The JSON body and HTTP status the port handlers write. -/
structure PortResp where
  httpStatus : Nat
  success : Bool
  error : Option String
  currentPort : Option String
  port : Option String
deriving DecidableEq, Repr

/-- Mirror of `Server.bindPortHandler` (the documented variant, with the
conflict check): empty port is a 400; a non-empty `targetPort` is left
unchanged and answered with 409 Conflict, the "Port already bound" error
and the current port; otherwise the target is set and the new port
returned with success. -/
def bindPortHandler (st : TCPProxy) (reqPort : String) : TCPProxy × PortResp :=
  if reqPort = "" then
    (st, ⟨400, false, some "Port is required", none, none⟩)
  else
    let currentPort := st.GetTargetPort
    if currentPort ≠ "" then
      (st, ⟨409, false, some "Port already bound", some currentPort, none⟩)
    else
      (st.SetTargetPort reqPort, ⟨200, true, none, none, some reqPort⟩)

/-- Mirror of `Server.unbindPortHandler` (the documented variant): clear
the target unconditionally and answer success. -/
def unbindPortHandler (st : TCPProxy) : TCPProxy × PortResp :=
  (st.ClearTargetPort, ⟨200, true, none, none, none⟩)

/-- C5: binding a (non-empty) port on an unbound proxy sets `targetPort`
and returns success with the port; binding on an already-bound proxy
leaves the target unchanged and returns HTTP 409 with the
"Port already bound" error and the current port. -/
theorem bindPortHandler_spec (st : TCPProxy) (p : String) (hp : p ≠ "") :
    (st.targetPort = "" →
      (bindPortHandler st p).1.targetPort = p ∧
      (bindPortHandler st p).2 = ⟨200, true, none, none, some p⟩) ∧
    (st.targetPort ≠ "" →
      (bindPortHandler st p).1 = st ∧
      (bindPortHandler st p).2 =
        ⟨409, false, some "Port already bound", some st.targetPort, none⟩) := by
  constructor
  · intro hempty
    simp [bindPortHandler, hp, TCPProxy.GetTargetPort, TCPProxy.SetTargetPort, hempty]
  · intro hfull
    simp [bindPortHandler, hp, TCPProxy.GetTargetPort, hfull]

/-- Witness for C5: bind 9000 on the unbound proxy succeeds; bind 9001 on
the resulting proxy returns 409 with current port 9000. -/
theorem bindPortHandler_spec_witness :
    (bindPortHandler ⟨""⟩ "9000").1.targetPort = "9000" ∧
    (bindPortHandler ⟨""⟩ "9000").2 = ⟨200, true, none, none, some "9000"⟩ ∧
    (bindPortHandler ⟨"9000"⟩ "9001").1 = ⟨"9000"⟩ ∧
    (bindPortHandler ⟨"9000"⟩ "9001").2 =
      ⟨409, false, some "Port already bound", some "9000", none⟩ := by
  have h1 := (bindPortHandler_spec ⟨""⟩ "9000" (by decide)).1 rfl
  have h2 := (bindPortHandler_spec ⟨"9000"⟩ "9001" (by decide)).2 (by decide)
  exact ⟨h1.1, h1.2, h2.1, h2.2⟩

/-- C6: `unbindPortHandler` clears `targetPort` and returns success from
every prior state; it is idempotent (a second unbind returns the same
cleared state and the same successful response); and an unbind followed
by a bind of a non-empty port `p` succeeds with `targetPort = p`. -/
theorem unbindPortHandler_spec (st : TCPProxy) (p : String) (hp : p ≠ "") :
    (unbindPortHandler st).1.targetPort = "" ∧
    (unbindPortHandler st).2.success = true ∧
    unbindPortHandler (unbindPortHandler st).1 = unbindPortHandler st ∧
    (bindPortHandler (unbindPortHandler st).1 p).1.targetPort = p ∧
    (bindPortHandler (unbindPortHandler st).1 p).2.success = true := by
  refine ⟨rfl, rfl, rfl, ?_, ?_⟩
  · have h := (bindPortHandler_spec (unbindPortHandler st).1 p hp).1 rfl
    exact h.1
  · have h := (bindPortHandler_spec (unbindPortHandler st).1 p hp).1 rfl
    rw [h.2]

/-- Witness for C6 from a bound proxy: unbind clears, is idempotent, and
rebinding 9001 succeeds. -/
theorem unbindPortHandler_spec_witness :
    (unbindPortHandler ⟨"9000"⟩).1.targetPort = "" ∧
    (unbindPortHandler ⟨"9000"⟩).2.success = true ∧
    unbindPortHandler (unbindPortHandler ⟨"9000"⟩).1 = unbindPortHandler ⟨"9000"⟩ ∧
    (bindPortHandler (unbindPortHandler ⟨"9000"⟩).1 "9001").1.targetPort = "9001" ∧
    (bindPortHandler (unbindPortHandler ⟨"9000"⟩).1 "9001").2.success = true :=
  unbindPortHandler_spec ⟨"9000"⟩ "9001" (by decide)

/-- Outcome of dispatching one HTTP request: whether the wrapped handler
ran, and the HTTP status written. -/
structure HttpResult where
  handlerInvoked : Bool
  httpStatus : Nat
deriving DecidableEq, Repr

/-- Mirror of `Server.authMiddleware`: read the Authorization header; if
it is not exactly the string Bearer-space followed by the sandbox secret,
write 401 Unauthorized and never call `next.ServeHTTP`; otherwise run the
wrapped handler. -/
def authMiddleware (sandboxSecret auth : String) (next : HttpResult) : HttpResult :=
  if auth ≠ "Bearer " ++ sandboxSecret then ⟨false, 401⟩ else next

/-- Mirror of `Server.RegisterRoutes`: the registered paths, each flagged
with whether it was wrapped in `authMiddleware` — every route except
`/health`. -/
def registeredRoutes : List (String × Bool) :=
  [("/health", false), ("/run", true), ("/write_file", true), ("/read_file", true),
   ("/delete_file", true), ("/delete_dir", true), ("/make_dir", true),
   ("/list_dir", true), ("/bind_port", true), ("/unbind_port", true)]

/-- Dispatch on the mux: `none` for an unregistered path; a wrapped route
goes through `authMiddleware`; `/health` runs its handler directly.
`handlerStatus` abstracts whatever status the inner handler writes. -/
def serveRoute (sandboxSecret auth route : String) (handlerStatus : Nat) :
    Option HttpResult :=
  match registeredRoutes.find? (fun rb => rb.1 = route) with
  | none => none
  | some rb =>
    if rb.2 then some (authMiddleware sandboxSecret auth ⟨true, handlerStatus⟩)
    else some ⟨true, handlerStatus⟩

/-- A wrapped route with a wrong bearer answers 401 without invoking the
handler. -/
lemma serveRoute_wrapped_unauthorized (sandboxSecret auth r : String)
    (handlerStatus : Nat)
    (hfind : registeredRoutes.find? (fun rb => rb.1 = r) = some (r, true))
    (hauth : auth ≠ "Bearer " ++ sandboxSecret) :
    serveRoute sandboxSecret auth r handlerStatus = some ⟨false, 401⟩ := by
  simp only [serveRoute]
  rw [hfind]
  simp [authMiddleware, hauth]

/-- C9: every registered route other than `/health` answers a request
whose Authorization header is not exactly Bearer-space-secret with 401
and does not invoke the underlying handler, while `/health` runs its
handler for any Authorization header. -/
theorem authMiddleware_guards_routes (sandboxSecret auth route : String) (b : Bool)
    (handlerStatus : Nat)
    (hmem : (route, b) ∈ registeredRoutes) (hroute : route ≠ "/health")
    (hauth : auth ≠ "Bearer " ++ sandboxSecret) :
    serveRoute sandboxSecret auth route handlerStatus = some ⟨false, 401⟩ ∧
    serveRoute sandboxSecret auth "/health" handlerStatus =
      some ⟨true, handlerStatus⟩ := by
  constructor
  · simp only [registeredRoutes, List.mem_cons, List.not_mem_nil, or_false,
      Prod.mk.injEq] at hmem
    rcases hmem with ⟨h1, h2⟩ | ⟨h1, h2⟩ | ⟨h1, h2⟩ | ⟨h1, h2⟩ | ⟨h1, h2⟩ |
      ⟨h1, h2⟩ | ⟨h1, h2⟩ | ⟨h1, h2⟩ | ⟨h1, h2⟩ | ⟨h1, h2⟩
    · exact absurd h1 hroute
    all_goals
      subst h1
      exact serveRoute_wrapped_unauthorized sandboxSecret auth _ handlerStatus
        (by decide) hauth
  · simp only [serveRoute]
    rw [show registeredRoutes.find? (fun rb => rb.1 = "/health") =
        some ("/health", false) from by decide]
    simp

/-- Witness for C9: with secret s3cret and a wrong header, `/run` answers
401 without invoking its handler, and `/health` runs regardless. -/
theorem authMiddleware_guards_routes_witness :
    serveRoute "s3cret" "Bearer wrong" "/run" 200 = some ⟨false, 401⟩ ∧
    serveRoute "s3cret" "Bearer wrong" "/health" 200 = some ⟨true, 200⟩ :=
  authMiddleware_guards_routes "s3cret" "Bearer wrong" "/run" true 200
    (by decide) (by decide) (by decide)

/-- Whether a channel element was sent by the historical drain goroutine
of `StreamProcessLogs` or live by a capture worker's observer
notification. -/
inductive Origin where
  | hist
  | live
deriving DecidableEq, Repr

/-- State of one subscription, starting right after `StreamProcessLogs`
has registered the observer channel (capacity 100) under `logsMu`:
the process's two rings; `snap = none` until the synchronous
`GetProcessLogs` call takes its snapshot, then the not-yet-drained rest
of that snapshot; `chan` is the FIFO content the subscriber will read,
each element tagged with its origin. -/
structure SubState where
  stdoutRing : LogBuffer
  stderrRing : LogBuffer
  snap : Option (List LogEntry)
  chan : List (LogEntry × Origin)
deriving DecidableEq, Repr

/-- Events of the subscription interleaving: a capture worker appends a
line to a ring and (holding `logsMu` read-locked) performs the
non-blocking send to the registered channel, dropping the line if the
channel is full; the snapshot (`GetProcessLogs`, stdout entries then
stderr entries); and one blocking send of the drain goroutine, enabled
only while the channel has room. -/
inductive SubStep where
  | liveOut (ts : Nat) (data : String)
  | liveErr (ts : Nat) (data : String)
  | takeSnapshot
  | drainOne
deriving DecidableEq, Repr

/-- The observer channel capacity in `StreamProcessLogs`. -/
def chanCap : Nat := 100

def subStep (s : SubState) (a : SubStep) : Option SubState :=
  match a with
  | SubStep.liveOut ts data =>
    let e : LogEntry := ⟨ts, "stdout", data⟩
    some { s with
      stdoutRing := s.stdoutRing.Append e
      chan := if s.chan.length < chanCap then s.chan ++ [(e, Origin.live)] else s.chan }
  | SubStep.liveErr ts data =>
    let e : LogEntry := ⟨ts, "stderr", data⟩
    some { s with
      stderrRing := s.stderrRing.Append e
      chan := if s.chan.length < chanCap then s.chan ++ [(e, Origin.live)] else s.chan }
  | SubStep.takeSnapshot =>
    match s.snap with
    | none => some { s with snap := some (s.stdoutRing.GetAll ++ s.stderrRing.GetAll) }
    | some _ => none
  | SubStep.drainOne =>
    match s.snap with
    | some (h :: rest) =>
      if s.chan.length < chanCap then
        some { s with chan := s.chan ++ [(h, Origin.hist)], snap := some rest }
      else none
    | _ => none

def subRun (s : SubState) (tr : List SubStep) : Option SubState :=
  match tr with
  | [] => some s
  | a :: tr' =>
    match subStep s a with
    | none => none
    | some s' => subRun s' tr'

/-- Subscription start: the rings as they were at registration time, no
snapshot taken yet, empty channel. -/
def subInit (r1 r2 : LogBuffer) : SubState :=
  { stdoutRing := r1, stderrRing := r2, snap := none, chan := [] }

/-- Claim C8 as stated: in every state a subscription can reach, every
historical line sits before every live line in the channel order the
subscriber observes (a live line may only appear after the history). -/
def historyBeforeLive : Prop :=
  ∀ (r1 r2 : LogBuffer) (tr : List SubStep) (s : SubState),
    subRun (subInit r1 r2) tr = some s →
    ∀ i j, ∀ (hi : i < s.chan.length) (hj : j < s.chan.length), i < j →
      (s.chan.get ⟨i, hi⟩).2 = Origin.live → (s.chan.get ⟨j, hj⟩).2 = Origin.hist →
      False

/-- C8 counterexample: the drain goroutine and the live observer sends
share one FIFO channel with no ordering barrier.  A line captured after
the observer is registered but before `GetProcessLogs` snapshots the
rings is sent live into the channel first, is then included in the
snapshot, and is re-sent by the drain — so the subscriber observes a live
line strictly before a historical line (the same line, twice). -/
theorem historyBeforeLive_counterexample : ¬ historyBeforeLive := by
  intro h
  have hc := h (NewLogBuffer 10000) (NewLogBuffer 10000)
      [SubStep.liveOut 0 "x", SubStep.takeSnapshot, SubStep.drainOne]
      { stdoutRing := { entries := [⟨0, "stdout", "x"⟩], maxEntries := 10000 },
        stderrRing := NewLogBuffer 10000,
        snap := some [],
        chan := [(⟨0, "stdout", "x"⟩, Origin.live), (⟨0, "stdout", "x"⟩, Origin.hist)] }
      (by decide) 0 1 (by decide) (by decide) (by decide) (by decide) (by decide)
  exact hc

/-- Once the drain has finished, later steps only append live elements to
the channel. -/
lemma subRun_after_drain (tr : List SubStep) :
    ∀ (s s' : SubState), s.snap = some [] → subRun s tr = some s' →
      ∃ rest, s'.chan = s.chan ++ rest ∧ ∀ x ∈ rest, x.2 = Origin.live := by
  induction tr with
  | nil =>
    intro s s' _ hrun
    simp only [subRun] at hrun
    cases hrun
    exact ⟨[], by simp⟩
  | cons a tr ih =>
    intro s s' hsnap hrun
    simp only [subRun] at hrun
    cases hps : subStep s a with
    | none => rw [hps] at hrun; cases hrun
    | some s1 =>
      rw [hps] at hrun
      cases a with
      | liveOut ts data =>
        simp only [subStep] at hps
        cases hps
        obtain ⟨rest, hchan, hlive⟩ := ih _ s' (by simpa using hsnap) hrun
        by_cases hlt : s.chan.length < chanCap
        · refine ⟨(⟨ts, "stdout", data⟩, Origin.live) :: rest, ?_, ?_⟩
          · rw [hchan]; simp [hlt]
          · intro x hx
            rcases List.mem_cons.mp hx with h | h
            · rw [h]
            · exact hlive x h
        · refine ⟨rest, ?_, hlive⟩
          rw [hchan]; simp [hlt]
      | liveErr ts data =>
        simp only [subStep] at hps
        cases hps
        obtain ⟨rest, hchan, hlive⟩ := ih _ s' (by simpa using hsnap) hrun
        by_cases hlt : s.chan.length < chanCap
        · refine ⟨(⟨ts, "stderr", data⟩, Origin.live) :: rest, ?_, ?_⟩
          · rw [hchan]; simp [hlt]
          · intro x hx
            rcases List.mem_cons.mp hx with h | h
            · rw [h]
            · exact hlive x h
        · refine ⟨rest, ?_, hlive⟩
          rw [hchan]; simp [hlt]
      | takeSnapshot =>
        simp only [subStep, hsnap] at hps
        cases hps
      | drainOne =>
        simp only [subStep, hsnap] at hps
        cases hps

/-- C8 amended: the historical snapshot is delivered before any live line
captured after the drain has completed — once the drain goroutine has
sent its whole snapshot, every later channel element is live and sits
after the existing content.  (A live line captured between registration
and the end of the drain may be interleaved with — even precede — the
history, and a line captured between registration and the snapshot is
delivered twice, once live and once with the history.) -/
theorem history_before_post_drain_live
    (r1 r2 : LogBuffer) (tr : List SubStep) (s : SubState)
    (_hrun : subRun (subInit r1 r2) tr = some s)
    (hdrained : s.snap = some [])
    (tr2 : List SubStep) (s' : SubState) (hrun2 : subRun s tr2 = some s') :
    ∃ rest, s'.chan = s.chan ++ rest ∧ ∀ x ∈ rest, x.2 = Origin.live :=
  subRun_after_drain tr2 s s' hdrained hrun2

/-- Witness for the amended C8: drain one historical line, then a live
line arrives; the channel is the history followed by the live line. -/
theorem history_before_post_drain_live_witness :
    ∃ rest,
      [((⟨0, "stdout", "h1"⟩ : LogEntry), Origin.hist), (⟨5, "stdout", "x"⟩, Origin.live)] =
        [((⟨0, "stdout", "h1"⟩ : LogEntry), Origin.hist)] ++ rest ∧
      ∀ x ∈ rest, x.2 = Origin.live := by
  have h := history_before_post_drain_live
      { entries := [⟨0, "stdout", "h1"⟩], maxEntries := 10000 } (NewLogBuffer 10000)
      [SubStep.takeSnapshot, SubStep.drainOne]
      { stdoutRing := { entries := [⟨0, "stdout", "h1"⟩], maxEntries := 10000 },
        stderrRing := NewLogBuffer 10000,
        snap := some [],
        chan := [(⟨0, "stdout", "h1"⟩, Origin.hist)] }
      (by decide) (by decide)
      [SubStep.liveOut 5 "x"]
      { stdoutRing :=
          { entries := [⟨0, "stdout", "h1"⟩, ⟨5, "stdout", "x"⟩], maxEntries := 10000 },
        stderrRing := NewLogBuffer 10000,
        snap := some [],
        chan := [(⟨0, "stdout", "h1"⟩, Origin.hist), (⟨5, "stdout", "x"⟩, Origin.live)] }
      (by decide)
  exact h
